import Mathlib

/-! # Test keyring of `keystore/keyring.go`

A shallow embedding of the deterministic test keyring and proofs of its
contract.

Modelling conventions.

* A Go `string` is a Lean `String`; `[]byte(s)` is its UTF-8 encoding.
* A Go `int` is an `Int`. `make` panics on a negative length and on a length
  above `maxAlloc`, the limit of the runtime; running out of physical memory
  below that limit is not modelled.
* A Go `map[string]V` is an association list with `mapIndex` for `m[k]` and
  `mapAssign` for `m[k] = v`; iteration visits the entries in list order, and
  results about iteration are stated for every list, hence for every order.
* A Go pointer `*T` is an `Option T` (`none` is the nil pointer).
* An `error` is an `Option GoError` (`none` is nil), a `GoError` being
  identified with the text its `Error` method returns.
* A call that may panic returns `Except Panic _`.
* The packages `crypto/secp256k1` and `crypto/sr25519` are not part of the
  file; their keypair types, the constant `PrivateKeyLength` and the two
  constructors are the fields of a `CryptoLib` every definition takes as a
  parameter.
* The package-level variable `TestKeyRing` is passed explicitly: `init`
  returns the holder and `insecureKeypairFromAddress` receives it.
-/

namespace keystore

/-! ## Constants -/

def AliceKey : String := "alice"
def BobKey : String := "bob"
def CharlieKey : String := "charlie"
def DaveKey : String := "dave"
def EveKey : String := "eve"

def EthChain : String := "ethereum"
def SubChain : String := "substrate"

/-! ## Go runtime notions -/

/-- An error value, identified with the message returned by its `Error` method. -/
structure GoError where
  Error : String
deriving DecidableEq, Repr

/-- The ways a call in this file can abort instead of returning. -/
inductive Panic where
  /-- The explicit `panic(err)` of `errorWrap`. -/
  | err (e : GoError)
  /-- A failed type assertion `x.(T)`. -/
  | typeAssertion
  /-- The builtin `make` called with a negative length. -/
  | makeslice
deriving DecidableEq, Repr

/-- Interface values occurring in the file (`crypto.Keypair` and the
`interface{}` handled by `errorWrap`): the nil interface, or a pointer whose
dynamic type is `*secp256k1.Keypair` or `*sr25519.Keypair`. -/
inductive Keypair (E S : Type) where
  | nil
  | secp256k1 (p : Option E)
  | sr25519 (p : Option S)
deriving DecidableEq, Repr

/-- The external cryptography packages. -/
structure CryptoLib (E S : Type) where
  /-- The constant `secp256k1.PrivateKeyLength`. -/
  PrivateKeyLength : Int
  /-- The function `secp256k1.NewKeypairFromPrivateKey`, returning `(*Keypair, error)`. -/
  NewKeypairFromPrivateKey : List UInt8 → Option E × Option GoError
  /-- The function `sr25519.NewKeypairFromSeed`, returning `(*Keypair, error)`. -/
  NewKeypairFromSeed : String → Option S × Option GoError

/-- The conversion `[]byte(s)`. -/
def bytes (s : String) : List UInt8 := s.toUTF8.data.toList

/-- The constant `maxAlloc` of the Go runtime, the largest size `make` accepts:
`1 << 48` on linux/amd64. -/
def maxAlloc : Int := 281474976710656

/-- The builtin `make([]byte, n)`: `n` zero bytes, a panic (`makeslice: len out
of range`) when `n` is negative or exceeds `maxAlloc`. -/
def make (n : Int) : Except Panic (List UInt8) :=
  if n < 0 ∨ maxAlloc < n then .error .makeslice else .ok (List.replicate n.toNat 0)

/-- Expansion of a format string whose verbs are `%s`, the first of which
receives the argument. -/
def sprintf : List Char → String → List Char
  | [], _ => []
  | '%' :: 's' :: rest, a => a.data ++ rest
  | c :: rest, a => c :: sprintf rest a

/-- The call `fmt.Errorf(format, a)` with one string argument. -/
def Errorf (format : String) (a : String) : GoError :=
  ⟨String.mk (sprintf format.data a)⟩

/-- The index expression `m[key]` in its comma-ok reading: `none` when absent. -/
def mapIndex {V : Type} : List (String × V) → String → Option V
  | [], _ => none
  | (k, v) :: m, key => if k = key then some v else mapIndex m key

/-- The assignment `m[key] = v`. -/
def mapAssign {V : Type} : List (String × V) → String → V → List (String × V)
  | [], key, v => [(key, v)]
  | (k, w) :: m, key, v => if k = key then (k, v) :: m else (k, w) :: mapAssign m key v

/-- The keys of a map. -/
def mapKeys {V : Type} (m : List (String × V)) : List String := m.map Prod.fst

/-- The type assertion `x.(*secp256k1.Keypair)`. -/
def assertSecp256k1 {E S : Type} : Keypair E S → Except Panic (Option E)
  | .secp256k1 p => .ok p
  | _ => .error .typeAssertion

/-- The type assertion `x.(*sr25519.Keypair)`. -/
def assertSr25519 {E S : Type} : Keypair E S → Except Panic (Option S)
  | .sr25519 p => .ok p
  | _ => .error .typeAssertion

/-! ## The keyring -/

/-- The struct `TestKeyRingHolder`. -/
structure TestKeyRingHolder (E S : Type) where
  EthereumKeys : List (String × Option E)
  CentrifugeKeys : List (String × Option S)

/-- The type `KeyRing`, a `map[string]crypto.Keypair`. -/
abbrev KeyRing (E S : Type) := List (String × Keypair E S)

/-- Loop of `makeETHRing`: `ring[key] = pair.(*secp256k1.Keypair)` for each entry. -/
def makeETHRingLoop {E S : Type} :
    List (String × Keypair E S) → List (String × Option E) →
      Except Panic (List (String × Option E))
  | [], ring => .ok ring
  | (key, pair) :: k, ring => do
    let p ← assertSecp256k1 pair
    makeETHRingLoop k (mapAssign ring key p)

def makeETHRing {E S : Type} (k : KeyRing E S) : Except Panic (List (String × Option E)) :=
  makeETHRingLoop k []

/-- Loop of `makeSUBRing`: `ring[key] = pair.(*sr25519.Keypair)` for each entry. -/
def makeSUBRingLoop {E S : Type} :
    List (String × Keypair E S) → List (String × Option S) →
      Except Panic (List (String × Option S))
  | [], ring => .ok ring
  | (key, pair) :: k, ring => do
    let p ← assertSr25519 pair
    makeSUBRingLoop k (mapAssign ring key p)

def makeSUBRing {E S : Type} (k : KeyRing E S) : Except Panic (List (String × Option S)) :=
  makeSUBRingLoop k []

/-- Adds zero bytes in front of `key`: `append(make([]byte, targetLength-len(key)), key...)`. -/
def padWithZeros (key : List UInt8) (targetLength : Int) : Except Panic (List UInt8) := do
  let res ← make (targetLength - key.length)
  pure (res ++ key)

/-- Panics on a non-nil error and returns its first argument otherwise. -/
def errorWrap {E S : Type} (inVal : Keypair E S) (err : Option GoError) :
    Except Panic (Keypair E S) :=
  match err with
  | some e => .error (.err e)
  | none => .ok inVal

/-- Creates the keypair of `key` for `chain`; the nil interface for any other chain. -/
def createKeypair {E S : Type} (lib : CryptoLib E S) (key chain : String) :
    Except Panic (Keypair E S) :=
  if chain = EthChain then do
    let bz ← padWithZeros (bytes key) lib.PrivateKeyLength
    let r := lib.NewKeypairFromPrivateKey bz
    let w ← errorWrap (Keypair.secp256k1 r.1 : Keypair E S) r.2
    let p ← assertSecp256k1 w
    pure (.secp256k1 p)
  else if chain = SubChain then do
    let r := lib.NewKeypairFromSeed ("//" ++ key)
    let w ← errorWrap (Keypair.sr25519 r.1 : Keypair E S) r.2
    let p ← assertSr25519 w
    pure (.sr25519 p)
  else
    pure .nil

/-- The map literal of `createKeyRing`; its five values are evaluated in source order. -/
def createKeyRing {E S : Type} (lib : CryptoLib E S) (chain : String) :
    Except Panic (KeyRing E S) := do
  let a ← createKeypair lib AliceKey chain
  let b ← createKeypair lib BobKey chain
  let c ← createKeypair lib CharlieKey chain
  let d ← createKeypair lib DaveKey chain
  let e ← createKeypair lib EveKey chain
  pure [(AliceKey, a), (BobKey, b), (CharlieKey, c), (DaveKey, d), (EveKey, e)]

/-- The package initialiser; the value it returns is the variable `TestKeyRing`. -/
def init {E S : Type} (lib : CryptoLib E S) : Except Panic (TestKeyRingHolder E S) := do
  let eth ← createKeyRing lib EthChain
  let EthereumKeys ← makeETHRing eth
  let sub ← createKeyRing lib SubChain
  let CentrifugeKeys ← makeSUBRing sub
  pure { EthereumKeys := EthereumKeys, CentrifugeKeys := CentrifugeKeys }

/-- Resolves a name and a chain type to a test keypair, as `(crypto.Keypair, error)`. -/
def insecureKeypairFromAddress {E S : Type} (TestKeyRing : TestKeyRingHolder E S)
    (key chainType : String) : Keypair E S × Option GoError :=
  let sel : Except GoError (Keypair E S × Bool) :=
    if chainType = EthChain then
      match mapIndex TestKeyRing.EthereumKeys key with
      | some p => .ok (.secp256k1 p, true)
      | none => .ok (.secp256k1 none, false)
    else if chainType = SubChain then
      match mapIndex TestKeyRing.CentrifugeKeys key with
      | some p => .ok (.sr25519 p, true)
      | none => .ok (.sr25519 none, false)
    else
      .error (Errorf "unrecognized chain type: %s" chainType)
  match sel with
  | .error e => (.nil, some e)
  | .ok (kp, ok) =>
    if !ok then (.nil, some (Errorf "invalid test key selection: %s" key))
    else (kp, none)

/-! ## Fixtures used to instantiate the results -/

/-- The five identity names, in the order of the map literal. -/
def identityNames : List String := [AliceKey, BobKey, CharlieKey, DaveKey, EveKey]

/-- A library whose keypairs record their seed: private keys must have 32 bytes. -/
def echoLib : CryptoLib (List UInt8) String where
  PrivateKeyLength := 32
  NewKeypairFromPrivateKey := fun bz =>
    if bz.length = 32 then (some bz, none) else (none, some ⟨"invalid private key length"⟩)
  NewKeypairFromSeed := fun seed => (some seed, none)

/-- A library like `echoLib` whose seed constructor fails on `//dave`. -/
def failingLib : CryptoLib (List UInt8) String where
  PrivateKeyLength := 32
  NewKeypairFromPrivateKey := fun bz =>
    if bz.length = 32 then (some bz, none) else (none, some ⟨"invalid private key length"⟩)
  NewKeypairFromSeed := fun seed =>
    if seed = "//dave" then (none, some ⟨"bad seed"⟩) else (some seed, none)

/-- A library that agrees with `echoLib` on the seeds of the five names and
rejects the seed `//mallory`. -/
def strictLib : CryptoLib (List UInt8) String where
  PrivateKeyLength := 32
  NewKeypairFromPrivateKey := fun bz =>
    if bz.length = 32 then (some bz, none) else (none, some ⟨"invalid private key length"⟩)
  NewKeypairFromSeed := fun seed =>
    if seed = "//mallory" then (none, some ⟨"bad seed"⟩) else (some seed, none)

/-- A library whose constructors return an error on every input. -/
def rejectingLib : CryptoLib (List UInt8) String where
  PrivateKeyLength := 32
  NewKeypairFromPrivateKey := fun _ => (none, some ⟨"rejected"⟩)
  NewKeypairFromSeed := fun _ => (none, some ⟨"rejected"⟩)

/-- The registry `init` builds from `echoLib`. -/
def echoRing : TestKeyRingHolder (List UInt8) String where
  EthereumKeys :=
    [("alice", some (List.replicate 27 0 ++ [97, 108, 105, 99, 101])),
     ("bob", some (List.replicate 29 0 ++ [98, 111, 98])),
     ("charlie", some (List.replicate 25 0 ++ [99, 104, 97, 114, 108, 105, 101])),
     ("dave", some (List.replicate 28 0 ++ [100, 97, 118, 101])),
     ("eve", some (List.replicate 29 0 ++ [101, 118, 101]))]
  CentrifugeKeys :=
    [("alice", some "//alice"), ("bob", some "//bob"), ("charlie", some "//charlie"),
     ("dave", some "//dave"), ("eve", some "//eve")]

/-! ## Closed forms used in the proofs -/

/-- Closed form of the padded ECDSA seed of a name. -/
def ethSeed (L : Int) (n : String) : List UInt8 :=
  List.replicate (L - (bytes n).length).toNat 0 ++ bytes n

/-- The pointer the ECDSA constructor returns for a name. -/
def ethPtr {E S : Type} (lib : CryptoLib E S) (n : String) : Option E :=
  (lib.NewKeypairFromPrivateKey (ethSeed lib.PrivateKeyLength n)).1

/-- The pointer the Schnorr constructor returns for a name. -/
def subPtr {E S : Type} (lib : CryptoLib E S) (n : String) : Option S :=
  (lib.NewKeypairFromSeed ("//" ++ n)).1

/-- The registry holding, for each name, the pointers returned by the constructors. -/
def expectedRing {E S : Type} (lib : CryptoLib E S) : TestKeyRingHolder E S where
  EthereumKeys := identityNames.map fun n => (n, ethPtr lib n)
  CentrifugeKeys := identityNames.map fun n => (n, subPtr lib n)

/-! ## Basic facts -/

theorem sprintf_unrecognized (a : String) :
    Errorf "unrecognized chain type: %s" a = ⟨"unrecognized chain type: " ++ a⟩ := by
  cases a with
  | mk d =>
    show GoError.mk _ = GoError.mk _
    congr 1
    apply String.ext
    show sprintf _ _ = _
    simp [sprintf]

theorem sprintf_invalid (a : String) :
    Errorf "invalid test key selection: %s" a = ⟨"invalid test key selection: " ++ a⟩ := by
  cases a with
  | mk d =>
    show GoError.mk _ = GoError.mk _
    congr 1
    apply String.ext
    show sprintf _ _ = _
    simp [sprintf]

theorem padWithZeros_of_le (key : List UInt8) (targetLength : Int)
    (h : (key.length : Int) ≤ targetLength)
    (hmax : targetLength - (key.length : Int) ≤ maxAlloc) :
    padWithZeros key targetLength =
      .ok (List.replicate (targetLength - key.length).toNat 0 ++ key) := by
  have h0 : ¬ (targetLength - (key.length : Int) < 0 ∨
      maxAlloc < targetLength - (key.length : Int)) := by omega
  unfold padWithZeros make
  rw [if_neg h0]
  rfl

theorem padWithZeros_of_lt (key : List UInt8) (targetLength : Int)
    (h : targetLength < (key.length : Int)) :
    padWithZeros key targetLength = .error .makeslice := by
  have h0 : targetLength - (key.length : Int) < 0 ∨
      maxAlloc < targetLength - (key.length : Int) := Or.inl (by omega)
  unfold padWithZeros make
  rw [if_pos h0]
  rfl

theorem padWithZeros_of_gt (key : List UInt8) (targetLength : Int)
    (h : maxAlloc < targetLength - (key.length : Int)) :
    padWithZeros key targetLength = .error .makeslice := by
  have h0 : targetLength - (key.length : Int) < 0 ∨
      maxAlloc < targetLength - (key.length : Int) := Or.inr h
  unfold padWithZeros make
  rw [if_pos h0]
  rfl

/-- The two outcomes of `padWithZeros`. -/
theorem padWithZeros_cases (key : List UInt8) (targetLength : Int) :
    ((key.length : Int) ≤ targetLength ∧ targetLength - (key.length : Int) ≤ maxAlloc ∧
        padWithZeros key targetLength =
          .ok (List.replicate (targetLength - key.length).toNat 0 ++ key)) ∨
      padWithZeros key targetLength = .error .makeslice := by
  by_cases h : (key.length : Int) ≤ targetLength
  · by_cases hmax : targetLength - (key.length : Int) ≤ maxAlloc
    · exact Or.inl ⟨h, hmax, padWithZeros_of_le key targetLength h hmax⟩
    · exact Or.inr (padWithZeros_of_gt key targetLength (by omega))
  · exact Or.inr (padWithZeros_of_lt key targetLength (by omega))

theorem createKeypair_sub {E S : Type} (lib : CryptoLib E S) (key : String) :
    createKeypair lib key SubChain =
      match (lib.NewKeypairFromSeed ("//" ++ key)).2 with
      | some e => .error (.err e)
      | none => .ok (.sr25519 (lib.NewKeypairFromSeed ("//" ++ key)).1) := by
  have h : SubChain ≠ EthChain := by decide
  unfold createKeypair
  rw [if_neg h, if_pos rfl]
  cases h2 : (lib.NewKeypairFromSeed ("//" ++ key)).2 <;>
    simp [errorWrap, assertSr25519, bind, Except.bind, pure, Except.pure, h2]

theorem createKeypair_eth {E S : Type} (lib : CryptoLib E S) (key : String) :
    createKeypair lib key EthChain =
      match padWithZeros (bytes key) lib.PrivateKeyLength with
      | .error p => .error p
      | .ok bz =>
        match (lib.NewKeypairFromPrivateKey bz).2 with
        | some e => .error (.err e)
        | none => .ok (.secp256k1 (lib.NewKeypairFromPrivateKey bz).1) := by
  unfold createKeypair
  rw [if_pos rfl]
  cases h1 : padWithZeros (bytes key) lib.PrivateKeyLength with
  | error p => simp [bind, Except.bind]
  | ok bz =>
    cases h2 : (lib.NewKeypairFromPrivateKey bz).2 <;>
      simp [errorWrap, assertSecp256k1, bind, Except.bind, pure, Except.pure, h2]


theorem createKeypair_eth_ok {E S : Type} {lib : CryptoLib E S} {n : String} {v : Keypair E S}
    (h : createKeypair lib n EthChain = .ok v) :
    padWithZeros (bytes n) lib.PrivateKeyLength = .ok (ethSeed lib.PrivateKeyLength n) ∧
      (lib.NewKeypairFromPrivateKey (ethSeed lib.PrivateKeyLength n)).2 = none ∧
      v = .secp256k1 (ethPtr lib n) := by
  rw [createKeypair_eth] at h
  rcases padWithZeros_cases (bytes n) lib.PrivateKeyLength with ⟨-, -, hp'⟩ | hp'
  · have hp : padWithZeros (bytes n) lib.PrivateKeyLength =
        .ok (ethSeed lib.PrivateKeyLength n) := hp'
    rw [hp] at h
    dsimp only at h
    refine ⟨hp, ?_⟩
    cases h2 : (lib.NewKeypairFromPrivateKey (ethSeed lib.PrivateKeyLength n)).2 with
    | some e =>
      rw [h2] at h
      cases h
    | none =>
      rw [h2] at h
      injection h with h
      exact ⟨rfl, h.symm⟩
  · rw [hp'] at h
    simp at h

theorem createKeypair_eth_of_ok {E S : Type} {lib : CryptoLib E S} {n : String} {bz : List UInt8}
    (hp : padWithZeros (bytes n) lib.PrivateKeyLength = .ok bz)
    (he : (lib.NewKeypairFromPrivateKey bz).2 = none) :
    createKeypair lib n EthChain = .ok (.secp256k1 (lib.NewKeypairFromPrivateKey bz).1) := by
  rw [createKeypair_eth, hp]
  simp [he]

theorem createKeypair_sub_ok {E S : Type} {lib : CryptoLib E S} {n : String} {v : Keypair E S}
    (h : createKeypair lib n SubChain = .ok v) :
    (lib.NewKeypairFromSeed ("//" ++ n)).2 = none ∧ v = .sr25519 (subPtr lib n) := by
  rw [createKeypair_sub] at h
  cases h2 : (lib.NewKeypairFromSeed ("//" ++ n)).2 with
  | some e => simp [h2] at h
  | none =>
    simp [h2] at h
    exact ⟨rfl, h.symm⟩

theorem createKeypair_sub_of_ok {E S : Type} {lib : CryptoLib E S} {n : String}
    (he : (lib.NewKeypairFromSeed ("//" ++ n)).2 = none) :
    createKeypair lib n SubChain = .ok (.sr25519 (lib.NewKeypairFromSeed ("//" ++ n)).1) := by
  rw [createKeypair_sub]
  simp [he]

/-- The map literal either has its five values, or aborts with the panic of the
first derivation that fails. -/
theorem createKeyRing_cases {E S : Type} (lib : CryptoLib E S) (chain : String) :
    (∃ a b c d e, createKeypair lib AliceKey chain = .ok a ∧
        createKeypair lib BobKey chain = .ok b ∧ createKeypair lib CharlieKey chain = .ok c ∧
        createKeypair lib DaveKey chain = .ok d ∧ createKeypair lib EveKey chain = .ok e ∧
        createKeyRing lib chain =
          .ok [(AliceKey, a), (BobKey, b), (CharlieKey, c), (DaveKey, d), (EveKey, e)]) ∨
      ∃ n, n ∈ identityNames ∧ ∃ p, createKeypair lib n chain = .error p ∧
        createKeyRing lib chain = .error p := by
  cases ha : createKeypair lib AliceKey chain with
  | error p =>
    exact Or.inr ⟨AliceKey, by simp [identityNames], p, ha,
      by simp [createKeyRing, ha, bind, Except.bind]⟩
  | ok a =>
  cases hb : createKeypair lib BobKey chain with
  | error p =>
    exact Or.inr ⟨BobKey, by simp [identityNames], p, hb,
      by simp [createKeyRing, ha, hb, bind, Except.bind]⟩
  | ok b =>
  cases hc : createKeypair lib CharlieKey chain with
  | error p =>
    exact Or.inr ⟨CharlieKey, by simp [identityNames], p, hc,
      by simp [createKeyRing, ha, hb, hc, bind, Except.bind]⟩
  | ok c =>
  cases hd : createKeypair lib DaveKey chain with
  | error p =>
    exact Or.inr ⟨DaveKey, by simp [identityNames], p, hd,
      by simp [createKeyRing, ha, hb, hc, hd, bind, Except.bind]⟩
  | ok d =>
  cases he : createKeypair lib EveKey chain with
  | error p =>
    exact Or.inr ⟨EveKey, by simp [identityNames], p, he,
      by simp [createKeyRing, ha, hb, hc, hd, he, bind, Except.bind]⟩
  | ok e =>
    exact Or.inl ⟨a, b, c, d, e, rfl, rfl, rfl, rfl, rfl,
      by simp [createKeyRing, ha, hb, hc, hd, he, bind, Except.bind, pure, Except.pure]⟩

theorem makeETHRing_five {E S : Type} (p1 p2 p3 p4 p5 : Option E) :
    makeETHRing ([(AliceKey, .secp256k1 p1), (BobKey, .secp256k1 p2),
        (CharlieKey, .secp256k1 p3), (DaveKey, .secp256k1 p4), (EveKey, .secp256k1 p5)] :
          KeyRing E S) =
      .ok [(AliceKey, p1), (BobKey, p2), (CharlieKey, p3), (DaveKey, p4), (EveKey, p5)] := by
  rfl

theorem makeSUBRing_five {E S : Type} (p1 p2 p3 p4 p5 : Option S) :
    makeSUBRing ([(AliceKey, .sr25519 p1), (BobKey, .sr25519 p2),
        (CharlieKey, .sr25519 p3), (DaveKey, .sr25519 p4), (EveKey, .sr25519 p5)] :
          KeyRing E S) =
      .ok [(AliceKey, p1), (BobKey, p2), (CharlieKey, p3), (DaveKey, p4), (EveKey, p5)] := by
  rfl

/-- Construction either completes with the expected registry, every
derivation having succeeded, or aborts with the panic of a failing derivation. -/
theorem init_cases {E S : Type} (lib : CryptoLib E S) :
    ((∀ n ∈ identityNames,
          createKeypair lib n EthChain = .ok (.secp256k1 (ethPtr lib n)) ∧
          createKeypair lib n SubChain = .ok (.sr25519 (subPtr lib n))) ∧
        init lib = .ok (expectedRing lib)) ∨
      ∃ n, n ∈ identityNames ∧ ∃ c, c ∈ [EthChain, SubChain] ∧ ∃ p,
        createKeypair lib n c = .error p ∧ init lib = .error p := by
  rcases createKeyRing_cases lib EthChain with
    ⟨a, b, c, d, e, ha, hb, hc, hd, he, hk⟩ | ⟨n, hn, p, hp, hk⟩
  · obtain ⟨-, -, rfl⟩ := createKeypair_eth_ok ha
    obtain ⟨-, -, rfl⟩ := createKeypair_eth_ok hb
    obtain ⟨-, -, rfl⟩ := createKeypair_eth_ok hc
    obtain ⟨-, -, rfl⟩ := createKeypair_eth_ok hd
    obtain ⟨-, -, rfl⟩ := createKeypair_eth_ok he
    rcases createKeyRing_cases lib SubChain with
      ⟨a', b', c', d', e', ha', hb', hc', hd', he', hk'⟩ | ⟨n, hn, p, hp, hk'⟩
    · obtain ⟨-, rfl⟩ := createKeypair_sub_ok ha'
      obtain ⟨-, rfl⟩ := createKeypair_sub_ok hb'
      obtain ⟨-, rfl⟩ := createKeypair_sub_ok hc'
      obtain ⟨-, rfl⟩ := createKeypair_sub_ok hd'
      obtain ⟨-, rfl⟩ := createKeypair_sub_ok he'
      refine Or.inl ⟨?_, ?_⟩
      · intro n hn
        simp only [identityNames, List.mem_cons, List.mem_singleton, List.not_mem_nil,
          or_false] at hn
        rcases hn with rfl | rfl | rfl | rfl | rfl
        · exact ⟨ha, ha'⟩
        · exact ⟨hb, hb'⟩
        · exact ⟨hc, hc'⟩
        · exact ⟨hd, hd'⟩
        · exact ⟨he, he'⟩
      · simp [init, hk, hk', makeETHRing_five, makeSUBRing_five, bind, Except.bind, pure,
          Except.pure, expectedRing, identityNames]
    · refine Or.inr ⟨n, hn, SubChain, by simp, p, hp, ?_⟩
      simp [init, hk, hk', makeETHRing_five, bind, Except.bind]
  · refine Or.inr ⟨n, hn, EthChain, by simp, p, hp, ?_⟩
    simp [init, hk, bind, Except.bind]


theorem mapIndex_map {V : Type} (f : String → V) (l : List String) (key : String) :
    mapIndex (l.map fun n => (n, f n)) key = if key ∈ l then some (f key) else none := by
  induction l with
  | nil => simp [mapIndex]
  | cons a l ih =>
    simp only [List.map_cons, mapIndex, List.mem_cons]
    by_cases h : a = key
    · subst h
      simp
    · have h' : ¬ key = a := fun e => h e.symm
      simp [h, h', ih]

/-- Every lookup on the expected registry. -/
theorem lookup_expectedRing {E S : Type} (lib : CryptoLib E S) (key chainType : String) :
    insecureKeypairFromAddress (expectedRing lib) key chainType =
      if chainType = EthChain then
        if key ∈ identityNames then (.secp256k1 (ethPtr lib key), none)
        else (.nil, some ⟨"invalid test key selection: " ++ key⟩)
      else if chainType = SubChain then
        if key ∈ identityNames then (.sr25519 (subPtr lib key), none)
        else (.nil, some ⟨"invalid test key selection: " ++ key⟩)
      else (.nil, some ⟨"unrecognized chain type: " ++ chainType⟩) := by
  unfold insecureKeypairFromAddress
  rw [sprintf_unrecognized, sprintf_invalid]
  simp only [expectedRing, mapIndex_map]
  by_cases h1 : chainType = EthChain
  · by_cases hk : key ∈ identityNames <;> simp [h1, hk]
  · by_cases h2 : chainType = SubChain
    · have h3 : ¬ SubChain = EthChain := by decide
      by_cases hk : key ∈ identityNames <;> simp [h2, h3, hk]
    · simp [h1, h2]

/-- A registry that `init` returned is the expected one, and every derivation succeeded. -/
theorem init_ok {E S : Type} {lib : CryptoLib E S} {ring : TestKeyRingHolder E S}
    (h : init lib = .ok ring) :
    ring = expectedRing lib ∧ ∀ n ∈ identityNames,
      createKeypair lib n EthChain = .ok (.secp256k1 (ethPtr lib n)) ∧
      createKeypair lib n SubChain = .ok (.sr25519 (subPtr lib n)) := by
  rcases init_cases lib with ⟨hall, hi⟩ | ⟨n, -, c, -, p, -, hi⟩
  · rw [hi] at h
    injection h with h
    exact ⟨h.symm, hall⟩
  · rw [hi] at h
    cases h

theorem mem_mapKeys_mapAssign {V : Type} (m : List (String × V)) (key : String) (v : V)
    (x : String) : x ∈ mapKeys (mapAssign m key v) ↔ x = key ∨ x ∈ mapKeys m := by
  induction m with
  | nil => simp [mapAssign, mapKeys]
  | cons a m ih =>
    obtain ⟨k, w⟩ := a
    by_cases h : k = key
    · subst h
      simp [mapAssign, mapKeys]
    · simp only [mapKeys] at ih
      simp only [mapAssign, if_neg h, mapKeys, List.map_cons, List.mem_cons, ih]
      tauto

theorem makeETHRingLoop_keys {E S : Type} (k : List (String × Keypair E S)) :
    ∀ (acc r : List (String × Option E)), makeETHRingLoop k acc = .ok r →
      ∀ x, x ∈ mapKeys r ↔ x ∈ mapKeys acc ∨ x ∈ mapKeys k := by
  induction k with
  | nil =>
    intro acc r h x
    simp only [makeETHRingLoop] at h
    injection h with h
    subst h
    simp [mapKeys]
  | cons a k ih =>
    intro acc r h x
    obtain ⟨key, pair⟩ := a
    cases pair with
    | nil => simp [makeETHRingLoop, assertSecp256k1, bind, Except.bind] at h
    | sr25519 p => simp [makeETHRingLoop, assertSecp256k1, bind, Except.bind] at h
    | secp256k1 p =>
      simp only [makeETHRingLoop, assertSecp256k1, bind, Except.bind] at h
      rw [ih _ _ h x, mem_mapKeys_mapAssign]
      simp only [mapKeys, List.map_cons, List.mem_cons]
      tauto

theorem makeSUBRingLoop_keys {E S : Type} (k : List (String × Keypair E S)) :
    ∀ (acc r : List (String × Option S)), makeSUBRingLoop k acc = .ok r →
      ∀ x, x ∈ mapKeys r ↔ x ∈ mapKeys acc ∨ x ∈ mapKeys k := by
  induction k with
  | nil =>
    intro acc r h x
    simp only [makeSUBRingLoop] at h
    injection h with h
    subst h
    simp [mapKeys]
  | cons a k ih =>
    intro acc r h x
    obtain ⟨key, pair⟩ := a
    cases pair with
    | nil => simp [makeSUBRingLoop, assertSr25519, bind, Except.bind] at h
    | secp256k1 p => simp [makeSUBRingLoop, assertSr25519, bind, Except.bind] at h
    | sr25519 p =>
      simp only [makeSUBRingLoop, assertSr25519, bind, Except.bind] at h
      rw [ih _ _ h x, mem_mapKeys_mapAssign]
      simp only [mapKeys, List.map_cons, List.mem_cons]
      tauto

theorem makeETHRingLoop_total {E S : Type} (k : List (String × Keypair E S)) :
    ∀ acc : List (String × Option E), (∀ x ∈ k, ∃ p, x.2 = Keypair.secp256k1 p) →
      ∃ r, makeETHRingLoop k acc = .ok r := by
  induction k with
  | nil => exact fun acc _ => ⟨acc, rfl⟩
  | cons a k ih =>
    intro acc h
    obtain ⟨key, pair⟩ := a
    obtain ⟨p, hp⟩ := h (key, pair) (by simp)
    simp only at hp
    subst hp
    simp only [makeETHRingLoop, assertSecp256k1, bind, Except.bind]
    exact ih _ fun x hx => h x (List.mem_cons_of_mem _ hx)

theorem makeSUBRingLoop_total {E S : Type} (k : List (String × Keypair E S)) :
    ∀ acc : List (String × Option S), (∀ x ∈ k, ∃ p, x.2 = Keypair.sr25519 p) →
      ∃ r, makeSUBRingLoop k acc = .ok r := by
  induction k with
  | nil => exact fun acc _ => ⟨acc, rfl⟩
  | cons a k ih =>
    intro acc h
    obtain ⟨key, pair⟩ := a
    obtain ⟨p, hp⟩ := h (key, pair) (by simp)
    simp only at hp
    subst hp
    simp only [makeSUBRingLoop, assertSr25519, bind, Except.bind]
    exact ih _ fun x hx => h x (List.mem_cons_of_mem _ hx)

theorem dropWhile_zero_replicate (k : Nat) (a : List UInt8) :
    (List.replicate k (0 : UInt8) ++ a).dropWhile (fun b => b == 0) =
      a.dropWhile (fun b => b == 0) := by
  induction k with
  | zero => simp
  | succ k ih => simp [List.replicate_succ, List.dropWhile_cons, ih]

theorem bytes_names_dropWhile {n : String} (hn : n ∈ identityNames) :
    (bytes n).dropWhile (fun b => b == 0) = bytes n := by
  simp only [identityNames, List.mem_cons, List.mem_singleton, List.not_mem_nil,
    or_false] at hn
  rcases hn with rfl | rfl | rfl | rfl | rfl <;> rfl

theorem bytes_names_inj {n m : String} (hn : n ∈ identityNames) (hm : m ∈ identityNames)
    (h : bytes n = bytes m) : n = m := by
  simp only [identityNames, List.mem_cons, List.mem_singleton, List.not_mem_nil,
    or_false] at hn hm
  rcases hn with rfl | rfl | rfl | rfl | rfl <;> rcases hm with rfl | rfl | rfl | rfl | rfl <;>
    first
    | rfl
    | (exfalso; revert h; decide)

/-- Distinct identity names have distinct padded seeds, whatever the target length. -/
theorem ethSeed_names_inj (L : Int) {n m : String} (hn : n ∈ identityNames)
    (hm : m ∈ identityNames) (h : ethSeed L n = ethSeed L m) : n = m := by
  apply bytes_names_inj hn hm
  have h2 := congrArg (List.dropWhile fun b => b == 0) h
  simp only [ethSeed, dropWhile_zero_replicate] at h2
  rwa [bytes_names_dropWhile hn, bytes_names_dropWhile hm] at h2

theorem subSeed_inj {n m : String} (h : "//" ++ n = "//" ++ m) : n = m := by
  have h2 := congrArg String.data h
  simp only [String.data_append, List.append_cancel_left_eq] at h2
  exact String.ext h2

/-- The map literal aborts with the panic of the first derivation that fails. -/
theorem createKeyRing_first_failure {E S : Type} (lib : CryptoLib E S) (chain : String)
    (pre post : List String) (n : String) (p : Panic)
    (hsplit : identityNames = pre ++ n :: post)
    (hpre : ∀ x ∈ pre, ∃ v, createKeypair lib x chain = .ok v)
    (hn : createKeypair lib n chain = .error p) :
    createKeyRing lib chain = .error p := by
  rcases pre with _ | ⟨x1, pre⟩
  · simp [identityNames] at hsplit
    obtain ⟨rfl, -⟩ := hsplit
    simp [createKeyRing, hn, bind, Except.bind]
  obtain ⟨v1, h1⟩ := hpre x1 (by simp)
  rcases pre with _ | ⟨x2, pre⟩
  · simp [identityNames] at hsplit
    obtain ⟨rfl, rfl, -⟩ := hsplit
    simp [createKeyRing, h1, hn, bind, Except.bind]
  obtain ⟨v2, h2⟩ := hpre x2 (by simp)
  rcases pre with _ | ⟨x3, pre⟩
  · simp [identityNames] at hsplit
    obtain ⟨rfl, rfl, rfl, -⟩ := hsplit
    simp [createKeyRing, h1, h2, hn, bind, Except.bind]
  obtain ⟨v3, h3⟩ := hpre x3 (by simp)
  rcases pre with _ | ⟨x4, pre⟩
  · simp [identityNames] at hsplit
    obtain ⟨rfl, rfl, rfl, rfl, -⟩ := hsplit
    simp [createKeyRing, h1, h2, h3, hn, bind, Except.bind]
  obtain ⟨v4, h4⟩ := hpre x4 (by simp)
  rcases pre with _ | ⟨x5, pre⟩
  · simp [identityNames] at hsplit
    obtain ⟨rfl, rfl, rfl, rfl, rfl, -⟩ := hsplit
    simp [createKeyRing, h1, h2, h3, h4, hn, bind, Except.bind]
  simp [identityNames] at hsplit

/-- When the five ECDSA derivations succeed, the first half of `init` completes. -/
theorem ethHalf_ok {E S : Type} (lib : CryptoLib E S)
    (hall : ∀ x ∈ identityNames, ∃ v, createKeypair lib x EthChain = .ok v) :
    ∃ k r, createKeyRing lib EthChain = .ok k ∧ makeETHRing k = .ok r := by
  rcases createKeyRing_cases lib EthChain with
    ⟨a, b, c, d, e, ha, hb, hc, hd, he, hk⟩ | ⟨n, hn, p, hp, -⟩
  · obtain ⟨-, -, rfl⟩ := createKeypair_eth_ok ha
    obtain ⟨-, -, rfl⟩ := createKeypair_eth_ok hb
    obtain ⟨-, -, rfl⟩ := createKeypair_eth_ok hc
    obtain ⟨-, -, rfl⟩ := createKeypair_eth_ok hd
    obtain ⟨-, -, rfl⟩ := createKeypair_eth_ok he
    exact ⟨_, _, hk, makeETHRing_five _ _ _ _ _⟩
  · obtain ⟨v, hv⟩ := hall n hn
    rw [hv] at hp
    cases hp

theorem mapKeys_expectedRing {E S : Type} (lib : CryptoLib E S) :
    mapKeys (expectedRing lib).EthereumKeys = identityNames ∧
      mapKeys (expectedRing lib).CentrifugeKeys = identityNames := by
  constructor <;> rfl

theorem init_echoLib : init echoLib = .ok echoRing := rfl


/-! ## Lookup errors -/

/-- C1: for every registry, every name and every chain type other than
"ethereum" and "substrate", the lookup returns the nil keypair and the error
"unrecognized chain type: " followed by that chain type; the name plays no
part, so this error precedes the unknown-identity error. -/
theorem C1_unrecognized_chain_type {E S : Type} (TestKeyRing : TestKeyRingHolder E S)
    (key chainType : String) (hEth : chainType ≠ "ethereum") (hSub : chainType ≠ "substrate") :
    insecureKeypairFromAddress TestKeyRing key chainType =
      (Keypair.nil, some ⟨"unrecognized chain type: " ++ chainType⟩) := by
  have h1 : ¬ chainType = EthChain := hEth
  have h2 : ¬ chainType = SubChain := hSub
  unfold insecureKeypairFromAddress
  rw [sprintf_unrecognized]
  simp [h1, h2]

theorem C1_witness :
    ("bitcoin" ≠ "ethereum" ∧ "bitcoin" ≠ "substrate") ∧
      insecureKeypairFromAddress echoRing "alice" "bitcoin" =
        (Keypair.nil, some ⟨"unrecognized chain type: bitcoin"⟩) ∧
      insecureKeypairFromAddress echoRing "mallory" "bitcoin" =
        (Keypair.nil, some ⟨"unrecognized chain type: bitcoin"⟩) :=
  ⟨⟨by decide, by decide⟩,
    C1_unrecognized_chain_type echoRing "alice" "bitcoin" (by decide) (by decide),
    C1_unrecognized_chain_type echoRing "mallory" "bitcoin" (by decide) (by decide)⟩

/-- C2: on the registry built by `init`, for chain type "ethereum" or
"substrate" and every name outside alice, bob, charlie, dave, eve, the lookup
returns the nil keypair and the error "invalid test key selection: " followed
by that name. -/
theorem C2_unknown_identity {E S : Type} (lib : CryptoLib E S)
    (TestKeyRing : TestKeyRingHolder E S) (hinit : init lib = .ok TestKeyRing)
    (key chainType : String) (hc : chainType = "ethereum" ∨ chainType = "substrate")
    (hk : key ∉ ["alice", "bob", "charlie", "dave", "eve"]) :
    insecureKeypairFromAddress TestKeyRing key chainType =
      (Keypair.nil, some ⟨"invalid test key selection: " ++ key⟩) := by
  obtain ⟨rfl, -⟩ := init_ok hinit
  have hk' : key ∉ identityNames := hk
  have h3 : ¬ SubChain = EthChain := by decide
  rw [lookup_expectedRing]
  rcases hc with rfl | rfl
  · rw [if_pos (show "ethereum" = EthChain from rfl), if_neg hk']
  · rw [if_neg (show ¬ "substrate" = EthChain from h3),
      if_pos (show "substrate" = SubChain from rfl), if_neg hk']

theorem C2_witness :
    init echoLib = .ok echoRing ∧ ("ethereum" = "ethereum" ∨ "ethereum" = "substrate") ∧
      "mallory" ∉ ["alice", "bob", "charlie", "dave", "eve"] ∧
      insecureKeypairFromAddress echoRing "mallory" "ethereum" =
        (Keypair.nil, some ⟨"invalid test key selection: mallory"⟩) :=
  ⟨rfl, Or.inl rfl, by decide,
    C2_unknown_identity echoLib echoRing rfl "mallory" "ethereum" (Or.inl rfl) (by decide)⟩

/-! ## Successful lookups -/

/-- C3: when both external constructors succeed on the seeds of the five
names, that is return a keypair and a nil error, `init` returns a registry,
and on it the lookup of each of the five names on each of the two chains
returns a nil error and the keypair the constructor returned, which is
neither the nil interface nor a nil pointer. -/
theorem C3_completeness {E S : Type} (lib : CryptoLib E S)
    (hE : ∀ n ∈ identityNames, ∃ bz e, padWithZeros (bytes n) lib.PrivateKeyLength = .ok bz ∧
      lib.NewKeypairFromPrivateKey bz = (some e, none))
    (hS : ∀ n ∈ identityNames, ∃ s, lib.NewKeypairFromSeed ("//" ++ n) = (some s, none)) :
    ∃ ring, init lib = .ok ring ∧
      ∀ n ∈ identityNames,
        (∃ bz e, padWithZeros (bytes n) lib.PrivateKeyLength = .ok bz ∧
          lib.NewKeypairFromPrivateKey bz = (some e, none) ∧
          insecureKeypairFromAddress ring n "ethereum" = (Keypair.secp256k1 (some e), none)) ∧
        (∃ s, lib.NewKeypairFromSeed ("//" ++ n) = (some s, none) ∧
          insecureKeypairFromAddress ring n "substrate" = (Keypair.sr25519 (some s), none)) := by
  have h3 : ¬ SubChain = EthChain := by decide
  rcases init_cases lib with ⟨-, hi⟩ | ⟨n, hn, c, hc, p, hp, -⟩
  · refine ⟨expectedRing lib, hi, ?_⟩
    intro n hn
    obtain ⟨bz, e, hpad, hnew⟩ := hE n hn
    obtain ⟨s, hseed⟩ := hS n hn
    refine ⟨⟨bz, e, hpad, hnew, ?_⟩, ⟨s, hseed, ?_⟩⟩
    · show insecureKeypairFromAddress (expectedRing lib) n EthChain = _
      rw [lookup_expectedRing, if_pos rfl, if_pos hn]
      have hk := createKeypair_eth_of_ok hpad (by rw [hnew])
      obtain ⟨hpad', -, -⟩ := createKeypair_eth_ok hk
      rw [hpad] at hpad'
      injection hpad' with hbz
      unfold ethPtr
      rw [← hbz, hnew]
    · show insecureKeypairFromAddress (expectedRing lib) n SubChain = _
      rw [lookup_expectedRing, if_neg h3, if_pos rfl, if_pos hn]
      unfold subPtr
      rw [hseed]
  · exfalso
    simp only [List.mem_cons, List.mem_singleton, List.not_mem_nil, or_false] at hc
    rcases hc with rfl | rfl
    · obtain ⟨bz, e, hpad, hnew⟩ := hE n hn
      rw [createKeypair_eth_of_ok hpad (by rw [hnew])] at hp
      cases hp
    · obtain ⟨s, hseed⟩ := hS n hn
      rw [createKeypair_sub_of_ok (by rw [hseed])] at hp
      cases hp

theorem echoLib_eth_ok : ∀ n ∈ identityNames,
    ∃ bz e, padWithZeros (bytes n) echoLib.PrivateKeyLength = .ok bz ∧
      echoLib.NewKeypairFromPrivateKey bz = (some e, none) := by
  intro n hn
  simp only [identityNames, List.mem_cons, List.mem_singleton, List.not_mem_nil,
    or_false] at hn
  rcases hn with rfl | rfl | rfl | rfl | rfl <;> exact ⟨_, _, rfl, rfl⟩

theorem C3_witness :
    (∀ n ∈ identityNames, ∃ bz e, padWithZeros (bytes n) echoLib.PrivateKeyLength = .ok bz ∧
        echoLib.NewKeypairFromPrivateKey bz = (some e, none)) ∧
      (∀ n ∈ identityNames, ∃ s, echoLib.NewKeypairFromSeed ("//" ++ n) = (some s, none)) ∧
      ∃ ring, init echoLib = .ok ring ∧
        ∀ n ∈ identityNames,
          (∃ bz e, padWithZeros (bytes n) echoLib.PrivateKeyLength = .ok bz ∧
            echoLib.NewKeypairFromPrivateKey bz = (some e, none) ∧
            insecureKeypairFromAddress ring n "ethereum" =
              (Keypair.secp256k1 (some e), none)) ∧
          (∃ s, echoLib.NewKeypairFromSeed ("//" ++ n) = (some s, none) ∧
            insecureKeypairFromAddress ring n "substrate" =
              (Keypair.sr25519 (some s), none)) :=
  ⟨echoLib_eth_ok, fun _ _ => ⟨_, rfl⟩,
    C3_completeness echoLib echoLib_eth_ok fun _ _ => ⟨_, rfl⟩⟩

/-- C4: on the registry built by `init`, for each of the five names the
"ethereum" lookup returns the pointer that `NewKeypairFromPrivateKey` returned
on the padded bytes of that name, and the "substrate" lookup returns the
pointer that `NewKeypairFromSeed` returned on "//" followed by that name, each
with its own dynamic type and a nil error. -/
theorem C4_lookup_exact {E S : Type} (lib : CryptoLib E S) (ring : TestKeyRingHolder E S)
    (hinit : init lib = .ok ring) (n : String) (hn : n ∈ identityNames) :
    (∃ bz, padWithZeros (bytes n) lib.PrivateKeyLength = .ok bz ∧
        insecureKeypairFromAddress ring n "ethereum" =
          (Keypair.secp256k1 (lib.NewKeypairFromPrivateKey bz).1, none)) ∧
      insecureKeypairFromAddress ring n "substrate" =
        (Keypair.sr25519 (lib.NewKeypairFromSeed ("//" ++ n)).1, none) := by
  obtain ⟨rfl, hall⟩ := init_ok hinit
  have h3 : ¬ SubChain = EthChain := by decide
  obtain ⟨hpad, -, -⟩ := createKeypair_eth_ok (hall n hn).1
  refine ⟨⟨_, hpad, ?_⟩, ?_⟩
  · show insecureKeypairFromAddress (expectedRing lib) n EthChain = _
    rw [lookup_expectedRing, if_pos rfl, if_pos hn]
    rfl
  · show insecureKeypairFromAddress (expectedRing lib) n SubChain = _
    rw [lookup_expectedRing, if_neg h3, if_pos rfl, if_pos hn]
    rfl

theorem C4_witness :
    init echoLib = .ok echoRing ∧ "bob" ∈ identityNames ∧
      (∃ bz, padWithZeros (bytes "bob") echoLib.PrivateKeyLength = .ok bz ∧
        insecureKeypairFromAddress echoRing "bob" "ethereum" =
          (Keypair.secp256k1 (echoLib.NewKeypairFromPrivateKey bz).1, none)) ∧
      insecureKeypairFromAddress echoRing "bob" "substrate" =
        (Keypair.sr25519 (echoLib.NewKeypairFromSeed ("//" ++ "bob")).1, none) :=
  ⟨rfl, by decide, C4_lookup_exact echoLib echoRing rfl "bob" (by decide)⟩

/-! ## Seeds -/

/-- C5, the claim refuted: the empty key is no longer than the target length
`1 << 62`, and `padWithZeros` does not return a slice of that length; `make`
receives a length above `maxAlloc` and panics. -/
theorem C5_counterexample :
    ((([] : List UInt8).length : Int) ≤ 4611686018427387904) ∧
      padWithZeros [] 4611686018427387904 = .error .makeslice ∧
      ¬ ∃ res, padWithZeros [] 4611686018427387904 = .ok res := by
  have h : padWithZeros [] 4611686018427387904 = .error .makeslice :=
    padWithZeros_of_gt [] 4611686018427387904 (by decide)
  refine ⟨by decide, h, ?_⟩
  rintro ⟨res, hres⟩
  rw [h] at hres
  cases hres

/-- C5, amended: when `len(key) <= targetLength` and the number of padding
bytes `targetLength - len(key)` does not exceed `maxAlloc`, `padWithZeros`
returns a slice of length `targetLength` whose first `targetLength - len(key)`
bytes are zero and whose remaining bytes are `key`; above `maxAlloc` it
panics in `make`; for "bob" and length 32 the result is 29 zero bytes followed
by the bytes 98, 111, 98 of "bob", and this is the slice the ECDSA constructor
receives. -/
theorem C5_padding (key : List UInt8) (targetLength : Int)
    (h : (key.length : Int) ≤ targetLength)
    (hmax : targetLength - (key.length : Int) ≤ maxAlloc) :
    (∃ res, padWithZeros key targetLength = .ok res ∧
        (res.length : Int) = targetLength ∧
        res.take (targetLength - key.length).toNat =
          List.replicate (targetLength - key.length).toNat 0 ∧
        res.drop (targetLength - key.length).toNat = key) ∧
      (∀ (k : List UInt8) (t : Int), maxAlloc < t - (k.length : Int) →
        padWithZeros k t = .error .makeslice) ∧
      bytes "bob" = [98, 111, 98] ∧
      padWithZeros (bytes "bob") 32 = .ok (List.replicate 29 0 ++ [98, 111, 98]) ∧
      createKeypair echoLib "bob" "ethereum" =
        .ok (Keypair.secp256k1 (some (List.replicate 29 0 ++ [98, 111, 98]))) := by
  refine ⟨⟨_, padWithZeros_of_le key targetLength h hmax, ?_, ?_, ?_⟩,
    padWithZeros_of_gt, rfl, rfl, rfl⟩
  · rw [List.length_append, List.length_replicate]
    push_cast
    rw [Int.toNat_of_nonneg (by omega)]
    omega
  · rw [List.take_left' (List.length_replicate _ _)]
  · rw [List.drop_left' (List.length_replicate _ _)]

theorem C5_witness :
    ((([98, 111, 98] : List UInt8).length : Int) ≤ 32) ∧
      ((32 : Int) - (([98, 111, 98] : List UInt8).length : Int) ≤ maxAlloc) ∧
      (∃ res, padWithZeros [98, 111, 98] 32 = .ok res ∧
        (res.length : Int) = 32 ∧
        res.take ((32 : Int) - ([98, 111, 98] : List UInt8).length).toNat =
          List.replicate ((32 : Int) - ([98, 111, 98] : List UInt8).length).toNat 0 ∧
        res.drop ((32 : Int) - ([98, 111, 98] : List UInt8).length).toNat = [98, 111, 98]) :=
  ⟨by decide, by decide, (C5_padding [98, 111, 98] 32 (by decide) (by decide)).1⟩

/-- C6, the claim refuted: a key of two bytes with target length 1 is longer
than the target, and `padWithZeros` does not return it; `make` receives the
length -1 and panics. -/
theorem C6_counterexample :
    (1 : Int) ≤ (([1, 2] : List UInt8).length : Int) ∧
      padWithZeros [1, 2] 1 = .error .makeslice ∧
      padWithZeros [1, 2] 1 ≠ .ok [1, 2] :=
  ⟨by decide, rfl, fun h => nomatch h⟩

/-- C6, amended: when `len(key)` equals `targetLength`, `padWithZeros` adds no
byte and returns `key`; when `len(key)` exceeds `targetLength` it panics in
`make`, which receives a negative length. -/
theorem C6_no_padding (key : List UInt8) (targetLength : Int) :
    (targetLength = key.length → padWithZeros key targetLength = .ok key) ∧
      (targetLength < key.length → padWithZeros key targetLength = .error .makeslice) := by
  refine ⟨fun he => ?_, fun hl => padWithZeros_of_lt key targetLength hl⟩
  rw [padWithZeros_of_le key targetLength (by omega) (by unfold maxAlloc; omega)]
  have h0 : (targetLength - (key.length : Int)).toNat = 0 := by omega
  rw [h0]
  rfl

theorem C6_witness :
    ((3 : Int) = (([98, 111, 98] : List UInt8).length : Int) ∧
        padWithZeros [98, 111, 98] 3 = .ok [98, 111, 98]) ∧
      ((2 : Int) < (([98, 111, 98] : List UInt8).length : Int) ∧
        padWithZeros [98, 111, 98] 2 = .error .makeslice) :=
  ⟨⟨by decide, (C6_no_padding [98, 111, 98] 3).1 (by decide)⟩,
    ⟨by decide, (C6_no_padding [98, 111, 98] 2).2 (by decide)⟩⟩

/-- C7: for every name, `createKeypair` on "substrate" calls
`NewKeypairFromSeed` on "//" followed by the name and nothing else, and its
outcome is that call's outcome; a constructor that records its argument
records "//eve" for "eve". -/
theorem C7_seed_convention {E S : Type} (lib : CryptoLib E S) (n : String) :
    (createKeypair lib n "substrate" =
        match (lib.NewKeypairFromSeed ("//" ++ n)).2 with
        | some e => .error (.err e)
        | none => .ok (.sr25519 (lib.NewKeypairFromSeed ("//" ++ n)).1)) ∧
      ("//" ++ n).data = '/' :: '/' :: n.data ∧
      createKeypair echoLib n "substrate" = .ok (Keypair.sr25519 (some ("//" ++ n))) ∧
      createKeypair echoLib "eve" "substrate" = .ok (Keypair.sr25519 (some "//eve")) := by
  refine ⟨createKeypair_sub lib n, by simp, ?_, rfl⟩
  exact @createKeypair_sub_of_ok _ _ echoLib n rfl


/-! ## Registry construction -/

/-- C8: in the registry built by `init` the two mappings have the same key
set, which is exactly alice, bob, charlie, dave, eve, five keys each without
repetition; `makeETHRing` and `makeSUBRing` return a map with the key set of
the KeyRing they are given, and they return whenever every value of that
KeyRing has the pointer type they assert. -/
theorem C8_registry_keys {E S : Type} :
    (∀ (lib : CryptoLib E S) (ring : TestKeyRingHolder E S), init lib = .ok ring →
        (∀ key, key ∈ mapKeys ring.EthereumKeys ↔
          key ∈ ["alice", "bob", "charlie", "dave", "eve"]) ∧
        (∀ key, key ∈ mapKeys ring.CentrifugeKeys ↔
          key ∈ ["alice", "bob", "charlie", "dave", "eve"]) ∧
        (∀ key, key ∈ mapKeys ring.EthereumKeys ↔ key ∈ mapKeys ring.CentrifugeKeys) ∧
        (mapKeys ring.EthereumKeys).Nodup ∧ (mapKeys ring.EthereumKeys).length = 5 ∧
        (mapKeys ring.CentrifugeKeys).Nodup ∧ (mapKeys ring.CentrifugeKeys).length = 5) ∧
      (∀ (k : KeyRing E S) (r : List (String × Option E)), makeETHRing k = .ok r →
        ∀ key, key ∈ mapKeys r ↔ key ∈ mapKeys k) ∧
      (∀ (k : KeyRing E S) (r : List (String × Option S)), makeSUBRing k = .ok r →
        ∀ key, key ∈ mapKeys r ↔ key ∈ mapKeys k) ∧
      (∀ k : KeyRing E S, (∀ x ∈ k, ∃ p, x.2 = Keypair.secp256k1 p) →
        ∃ r, makeETHRing k = .ok r) ∧
      (∀ k : KeyRing E S, (∀ x ∈ k, ∃ p, x.2 = Keypair.sr25519 p) →
        ∃ r, makeSUBRing k = .ok r) := by
  refine ⟨?_, ?_, ?_, fun k h => makeETHRingLoop_total k [] h,
    fun k h => makeSUBRingLoop_total k [] h⟩
  · intro lib ring hinit
    obtain ⟨rfl, -⟩ := init_ok hinit
    obtain ⟨h1, h2⟩ := mapKeys_expectedRing lib
    rw [h1, h2]
    exact ⟨fun _ => Iff.rfl, fun _ => Iff.rfl, fun _ => Iff.rfl, by decide, rfl, by decide, rfl⟩
  · intro k r h key
    have := makeETHRingLoop_keys k [] r h key
    simpa [mapKeys] using this
  · intro k r h key
    have := makeSUBRingLoop_keys k [] r h key
    simpa [mapKeys] using this

theorem C8_witness :
    init echoLib = .ok echoRing ∧
      (∀ key, key ∈ mapKeys echoRing.EthereumKeys ↔ key ∈ mapKeys echoRing.CentrifugeKeys) ∧
      (mapKeys echoRing.EthereumKeys).length = 5 :=
  ⟨rfl, (C8_registry_keys.1 echoLib echoRing rfl).2.2.1,
    (C8_registry_keys.1 echoLib echoRing rfl).2.2.2.2.1⟩

/-- C9: `errorWrap` panics with its error argument exactly when that argument
is non-nil and otherwise returns its value argument; an error returned by an
external constructor makes `createKeypair` panic with that error; a failing
derivation for one of the five names on either chain leaves no registry, and
`init` aborts with the panic of the first derivation that fails, in the order
in which they are evaluated; a panic of `init` is always that of one of the
ten derivations; when the ten external calls return a nil error, `init`
returns a registry whose two mappings hold, for each of the five names, the
pointer returned for that name. -/
theorem C9_fail_fast {E S : Type} (lib : CryptoLib E S) :
    (∀ (v : Keypair E S) (err : Option GoError),
        ((∃ p, errorWrap v err = .error p) ↔ err ≠ none) ∧
        (∀ e, err = some e → errorWrap v err = .error (.err e)) ∧
        (err = none → errorWrap v err = .ok v)) ∧
      (∀ n bz e, padWithZeros (bytes n) lib.PrivateKeyLength = .ok bz →
        (lib.NewKeypairFromPrivateKey bz).2 = some e →
        createKeypair lib n EthChain = .error (.err e)) ∧
      (∀ n e, (lib.NewKeypairFromSeed ("//" ++ n)).2 = some e →
        createKeypair lib n SubChain = .error (.err e)) ∧
      (∀ n ∈ identityNames, ∀ c ∈ [EthChain, SubChain], ∀ p,
        createKeypair lib n c = .error p →
        (∃ q, init lib = .error q) ∧ ∀ ring, init lib ≠ .ok ring) ∧
      (∀ (pre post : List String) (n : String) (p : Panic),
        identityNames = pre ++ n :: post →
        (∀ x ∈ pre, ∃ v, createKeypair lib x EthChain = .ok v) →
        createKeypair lib n EthChain = .error p → init lib = .error p) ∧
      (∀ (pre post : List String) (n : String) (p : Panic),
        (∀ x ∈ identityNames, ∃ v, createKeypair lib x EthChain = .ok v) →
        identityNames = pre ++ n :: post →
        (∀ x ∈ pre, ∃ v, createKeypair lib x SubChain = .ok v) →
        createKeypair lib n SubChain = .error p → init lib = .error p) ∧
      (∀ q, init lib = .error q →
        ∃ n ∈ identityNames, ∃ c ∈ [EthChain, SubChain], createKeypair lib n c = .error q) ∧
      ((∀ n ∈ identityNames,
          (∃ bz, padWithZeros (bytes n) lib.PrivateKeyLength = .ok bz ∧
            (lib.NewKeypairFromPrivateKey bz).2 = none) ∧
          (lib.NewKeypairFromSeed ("//" ++ n)).2 = none) →
        ∃ ring, init lib = .ok ring ∧ ∀ n ∈ identityNames,
          (∃ bz, padWithZeros (bytes n) lib.PrivateKeyLength = .ok bz ∧
            mapIndex ring.EthereumKeys n = some (lib.NewKeypairFromPrivateKey bz).1) ∧
          mapIndex ring.CentrifugeKeys n = some (lib.NewKeypairFromSeed ("//" ++ n)).1) := by
  refine ⟨?_, ?_, ?_, ?_, ?_, ?_, ?_, ?_⟩
  · intro v err
    cases err with
    | none => simp [errorWrap]
    | some e => simp [errorWrap]
  · intro n bz e hp he
    rw [createKeypair_eth, hp]
    simp [he]
  · intro n e he
    rw [createKeypair_sub]
    simp [he]
  · intro n hn c hc p hp
    rcases init_cases lib with ⟨hall, -⟩ | ⟨-, -, -, -, q, -, hi⟩
    · exfalso
      simp only [List.mem_cons, List.mem_singleton, List.not_mem_nil, or_false] at hc
      rcases hc with rfl | rfl
      · rw [(hall n hn).1] at hp
        cases hp
      · rw [(hall n hn).2] at hp
        cases hp
    · refine ⟨⟨q, hi⟩, fun ring h => ?_⟩
      rw [hi] at h
      cases h
  · intro pre post n p hsplit hpre hp
    have hk := createKeyRing_first_failure lib EthChain pre post n p hsplit hpre hp
    simp [init, hk, bind, Except.bind]
  · intro pre post n p hall hsplit hpre hp
    have hk := createKeyRing_first_failure lib SubChain pre post n p hsplit hpre hp
    obtain ⟨k, r, h1, h2⟩ := ethHalf_ok lib hall
    simp [init, h1, h2, hk, bind, Except.bind]
  · intro q hq
    rcases init_cases lib with ⟨-, hi⟩ | ⟨n, hn, c, hc, p, hp, hi⟩
    · rw [hi] at hq
      cases hq
    · rw [hi] at hq
      injection hq with hq
      subst hq
      exact ⟨n, hn, c, hc, hp⟩
  · intro h
    rcases init_cases lib with ⟨hall, hi⟩ | ⟨n, hn, c, hc, p, hp, -⟩
    · refine ⟨expectedRing lib, hi, fun n hn => ?_⟩
      obtain ⟨hpad, -, -⟩ := createKeypair_eth_ok (hall n hn).1
      refine ⟨⟨_, hpad, ?_⟩, ?_⟩
      · simp only [expectedRing, mapIndex_map, if_pos hn]
        rfl
      · simp only [expectedRing, mapIndex_map, if_pos hn]
        rfl
    · exfalso
      simp only [List.mem_cons, List.mem_singleton, List.not_mem_nil, or_false] at hc
      rcases hc with rfl | rfl
      · obtain ⟨⟨bz, hpad, herr⟩, -⟩ := h n hn
        rw [createKeypair_eth_of_ok hpad herr] at hp
        cases hp
      · rw [createKeypair_sub_of_ok (h n hn).2] at hp
        cases hp

theorem failingLib_eth_ok : ∀ x ∈ identityNames,
    ∃ v, createKeypair failingLib x EthChain = .ok v := by
  intro n hn
  simp only [identityNames, List.mem_cons, List.mem_singleton, List.not_mem_nil,
    or_false] at hn
  rcases hn with rfl | rfl | rfl | rfl | rfl <;> exact ⟨_, rfl⟩

theorem failingLib_sub_ok : ∀ x ∈ [AliceKey, BobKey, CharlieKey],
    ∃ v, createKeypair failingLib x SubChain = .ok v := by
  intro n hn
  simp only [List.mem_cons, List.mem_singleton, List.not_mem_nil, or_false] at hn
  rcases hn with rfl | rfl | rfl <;> exact ⟨_, rfl⟩

theorem C9_witness :
    (failingLib.NewKeypairFromSeed ("//" ++ "dave")).2 = some ⟨"bad seed"⟩ ∧
      createKeypair failingLib "dave" SubChain = .error (.err ⟨"bad seed"⟩) ∧
      init failingLib = .error (.err ⟨"bad seed"⟩) :=
  ⟨rfl, (C9_fail_fast failingLib).2.2.1 "dave" ⟨"bad seed"⟩ rfl,
    (C9_fail_fast failingLib).2.2.2.2.2.1 [AliceKey, BobKey, CharlieKey] [EveKey] DaveKey
      (.err ⟨"bad seed"⟩) failingLib_eth_ok rfl failingLib_sub_ok rfl⟩

theorem mapIndex_mapAssign {V : Type} (m : List (String × V)) (key : String) (v : V)
    (x : String) : mapIndex (mapAssign m key v) x = if key = x then some v else mapIndex m x := by
  induction m with
  | nil => simp [mapAssign, mapIndex]
  | cons a m ih =>
    obtain ⟨k, w⟩ := a
    by_cases h : k = key
    · subst h
      by_cases hx : k = x <;> simp [mapAssign, mapIndex, hx]
    · by_cases hx : k = x
      · subst hx
        have h' : ¬ key = k := fun e => h e.symm
        simp [mapAssign, mapIndex, h, h']
      · simp [mapAssign, mapIndex, h, hx, ih]

theorem mapIndex_of_not_mem {V : Type} (m : List (String × V)) (x : String)
    (h : x ∉ mapKeys m) : mapIndex m x = none := by
  induction m with
  | nil => rfl
  | cons a m ih =>
    obtain ⟨k, w⟩ := a
    simp only [mapKeys, List.map_cons, List.mem_cons, not_or] at h
    have hk : ¬ k = x := fun e => h.1 e.symm
    simp only [mapIndex, if_neg hk]
    exact ih h.2

theorem mapIndex_eq_some_iff {V : Type} (m : List (String × V)) (hnd : (mapKeys m).Nodup)
    (x : String) (v : V) : mapIndex m x = some v ↔ (x, v) ∈ m := by
  induction m with
  | nil => simp [mapIndex]
  | cons a m ih =>
    obtain ⟨k, w⟩ := a
    simp only [mapKeys, List.map_cons, List.nodup_cons] at hnd
    by_cases hk : k = x
    · subst hk
      have hno : (k, v) ∉ m := fun hm => hnd.1 (List.mem_map_of_mem Prod.fst hm)
      have hi : mapIndex ((k, w) :: m) k = some w := by simp [mapIndex]
      rw [hi]
      constructor
      · intro h
        injection h with h
        subst h
        exact List.mem_cons_self _ _
      · intro h
        rcases List.mem_cons.mp h with h | h
        · injection h with _ h2
          rw [h2]
        · exact absurd h hno
    · have hk' : ¬ x = k := fun e => hk e.symm
      simp only [mapIndex, if_neg hk, List.mem_cons, Prod.mk.injEq, hk', false_and, false_or]
      exact ih hnd.2

theorem mapIndex_perm {V : Type} {k k' : List (String × V)} (hp : k.Perm k')
    (hnd : (mapKeys k).Nodup) (x : String) : mapIndex k x = mapIndex k' x := by
  have hnd' : (mapKeys k').Nodup := (hp.map Prod.fst).nodup_iff.mp hnd
  apply Option.ext
  intro v
  simp only [Option.mem_def]
  rw [mapIndex_eq_some_iff k hnd, mapIndex_eq_some_iff k' hnd', hp.mem_iff]

theorem makeETHRingLoop_typed {E S : Type} (k : List (String × Keypair E S)) :
    ∀ (acc r : List (String × Option E)), makeETHRingLoop k acc = .ok r →
      ∀ x ∈ k, ∃ p, x.2 = Keypair.secp256k1 p := by
  induction k with
  | nil => intro _ _ _ x hx; cases hx
  | cons a k ih =>
    intro acc r h x hx
    obtain ⟨key, pair⟩ := a
    cases pair with
    | nil => simp [makeETHRingLoop, assertSecp256k1, bind, Except.bind] at h
    | sr25519 p => simp [makeETHRingLoop, assertSecp256k1, bind, Except.bind] at h
    | secp256k1 p =>
      simp only [makeETHRingLoop, assertSecp256k1, bind, Except.bind] at h
      rcases List.mem_cons.mp hx with rfl | hx
      · exact ⟨p, rfl⟩
      · exact ih _ _ h x hx

theorem makeSUBRingLoop_typed {E S : Type} (k : List (String × Keypair E S)) :
    ∀ (acc r : List (String × Option S)), makeSUBRingLoop k acc = .ok r →
      ∀ x ∈ k, ∃ p, x.2 = Keypair.sr25519 p := by
  induction k with
  | nil => intro _ _ _ x hx; cases hx
  | cons a k ih =>
    intro acc r h x hx
    obtain ⟨key, pair⟩ := a
    cases pair with
    | nil => simp [makeSUBRingLoop, assertSr25519, bind, Except.bind] at h
    | secp256k1 p => simp [makeSUBRingLoop, assertSr25519, bind, Except.bind] at h
    | sr25519 p =>
      simp only [makeSUBRingLoop, assertSr25519, bind, Except.bind] at h
      rcases List.mem_cons.mp hx with rfl | hx
      · exact ⟨p, rfl⟩
      · exact ih _ _ h x hx

/-- What the map built by `makeETHRing` holds at a key, the keys of the
KeyRing being distinct. -/
theorem makeETHRingLoop_index {E S : Type} (k : List (String × Keypair E S)) :
    ∀ (acc r : List (String × Option E)), makeETHRingLoop k acc = .ok r →
      (mapKeys k).Nodup → ∀ x,
        (mapIndex k x = none → mapIndex r x = mapIndex acc x) ∧
        ∀ p, mapIndex k x = some (Keypair.secp256k1 p) → mapIndex r x = some p := by
  induction k with
  | nil =>
    intro acc r h _ x
    simp only [makeETHRingLoop] at h
    injection h with h
    subst h
    exact ⟨fun _ => rfl, fun p hp => by simp [mapIndex] at hp⟩
  | cons a k ih =>
    intro acc r h hnd x
    obtain ⟨key, pair⟩ := a
    simp only [mapKeys, List.map_cons, List.nodup_cons] at hnd
    cases pair with
    | nil => simp [makeETHRingLoop, assertSecp256k1, bind, Except.bind] at h
    | sr25519 p => simp [makeETHRingLoop, assertSecp256k1, bind, Except.bind] at h
    | secp256k1 q =>
      simp only [makeETHRingLoop, assertSecp256k1, bind, Except.bind] at h
      obtain ⟨ih1, ih2⟩ := ih _ _ h hnd.2 x
      by_cases hk : key = x
      · subst hk
        have hnone : mapIndex k key = none := mapIndex_of_not_mem k key hnd.1
        have hr : mapIndex r key = some q := by
          rw [ih1 hnone, mapIndex_mapAssign, if_pos rfl]
        refine ⟨fun hx => ?_, fun p hp => ?_⟩
        · simp [mapIndex] at hx
        · simp [mapIndex] at hp
          rw [hr, hp]
      · simp only [mapIndex, if_neg hk]
        refine ⟨fun hx => ?_, ih2⟩
        rw [ih1 hx, mapIndex_mapAssign, if_neg hk]

theorem makeSUBRingLoop_index {E S : Type} (k : List (String × Keypair E S)) :
    ∀ (acc r : List (String × Option S)), makeSUBRingLoop k acc = .ok r →
      (mapKeys k).Nodup → ∀ x,
        (mapIndex k x = none → mapIndex r x = mapIndex acc x) ∧
        ∀ p, mapIndex k x = some (Keypair.sr25519 p) → mapIndex r x = some p := by
  induction k with
  | nil =>
    intro acc r h _ x
    simp only [makeSUBRingLoop] at h
    injection h with h
    subst h
    exact ⟨fun _ => rfl, fun p hp => by simp [mapIndex] at hp⟩
  | cons a k ih =>
    intro acc r h hnd x
    obtain ⟨key, pair⟩ := a
    simp only [mapKeys, List.map_cons, List.nodup_cons] at hnd
    cases pair with
    | nil => simp [makeSUBRingLoop, assertSr25519, bind, Except.bind] at h
    | secp256k1 p => simp [makeSUBRingLoop, assertSr25519, bind, Except.bind] at h
    | sr25519 q =>
      simp only [makeSUBRingLoop, assertSr25519, bind, Except.bind] at h
      obtain ⟨ih1, ih2⟩ := ih _ _ h hnd.2 x
      by_cases hk : key = x
      · subst hk
        have hnone : mapIndex k key = none := mapIndex_of_not_mem k key hnd.1
        have hr : mapIndex r key = some q := by
          rw [ih1 hnone, mapIndex_mapAssign, if_pos rfl]
        refine ⟨fun hx => ?_, fun p hp => ?_⟩
        · simp [mapIndex] at hx
        · simp [mapIndex] at hp
          rw [hr, hp]
      · simp only [mapIndex, if_neg hk]
        refine ⟨fun hx => ?_, ih2⟩
        rw [ih1 hx, mapIndex_mapAssign, if_neg hk]

/-- The map built by `makeETHRing` does not depend on the order in which the
entries of the KeyRing are visited. -/
theorem makeETHRing_perm {E S : Type} {k k' : KeyRing E S} (hp : k.Perm k')
    (hnd : (mapKeys k).Nodup) {r : List (String × Option E)} (h : makeETHRing k = .ok r) :
    ∃ r', makeETHRing k' = .ok r' ∧ ∀ x, mapIndex r' x = mapIndex r x := by
  have hty := makeETHRingLoop_typed k [] r h
  have hty' : ∀ x ∈ k', ∃ p, x.2 = Keypair.secp256k1 p := fun x hx => hty x (hp.mem_iff.mpr hx)
  have hnd' : (mapKeys k').Nodup := (hp.map Prod.fst).nodup_iff.mp hnd
  obtain ⟨r', hr'⟩ := makeETHRingLoop_total k' [] hty'
  refine ⟨r', hr', fun x => ?_⟩
  obtain ⟨a1, a2⟩ := makeETHRingLoop_index k [] r h hnd x
  obtain ⟨b1, b2⟩ := makeETHRingLoop_index k' [] r' hr' hnd' x
  have hperm := mapIndex_perm hp hnd x
  cases hx : mapIndex k x with
  | none => rw [a1 hx, b1 (hperm ▸ hx)]
  | some v =>
    obtain ⟨p, hv⟩ := hty (x, v) ((mapIndex_eq_some_iff k hnd x v).mp hx)
    simp only at hv
    subst hv
    rw [a2 p hx, b2 p (hperm ▸ hx)]

/-- The map built by `makeSUBRing` does not depend on the order in which the
entries of the KeyRing are visited. -/
theorem makeSUBRing_perm {E S : Type} {k k' : KeyRing E S} (hp : k.Perm k')
    (hnd : (mapKeys k).Nodup) {r : List (String × Option S)} (h : makeSUBRing k = .ok r) :
    ∃ r', makeSUBRing k' = .ok r' ∧ ∀ x, mapIndex r' x = mapIndex r x := by
  have hty := makeSUBRingLoop_typed k [] r h
  have hty' : ∀ x ∈ k', ∃ p, x.2 = Keypair.sr25519 p := fun x hx => hty x (hp.mem_iff.mpr hx)
  have hnd' : (mapKeys k').Nodup := (hp.map Prod.fst).nodup_iff.mp hnd
  obtain ⟨r', hr'⟩ := makeSUBRingLoop_total k' [] hty'
  refine ⟨r', hr', fun x => ?_⟩
  obtain ⟨a1, a2⟩ := makeSUBRingLoop_index k [] r h hnd x
  obtain ⟨b1, b2⟩ := makeSUBRingLoop_index k' [] r' hr' hnd' x
  have hperm := mapIndex_perm hp hnd x
  cases hx : mapIndex k x with
  | none => rw [a1 hx, b1 (hperm ▸ hx)]
  | some v =>
    obtain ⟨p, hv⟩ := hty (x, v) ((mapIndex_eq_some_iff k hnd x v).mp hx)
    simp only at hv
    subst hv
    rw [a2 p hx, b2 p (hperm ▸ hx)]

/-- The keys of the map literal are the five names. -/
theorem createKeyRing_keys {E S : Type} {lib : CryptoLib E S} {chain : String}
    {k : KeyRing E S} (h : createKeyRing lib chain = .ok k) : mapKeys k = identityNames := by
  rcases createKeyRing_cases lib chain with ⟨a, b, c, d, e, -, -, -, -, -, hk⟩ | ⟨n, -, p, -, hk⟩
  · rw [hk] at h
    injection h with h
    subst h
    rfl
  · rw [hk] at h
    cases h

/-! ## Determinism, totality of lookup, type assertions -/

/-- The outcome of a derivation depends on the library only through the
constant and the value of the constructor on the seed of the name. -/
theorem createKeypair_congr {E S : Type} (lib lib' : CryptoLib E S)
    (hL : lib.PrivateKeyLength = lib'.PrivateKeyLength) (n : String)
    (hE : ∀ bz, padWithZeros (bytes n) lib.PrivateKeyLength = .ok bz →
      lib.NewKeypairFromPrivateKey bz = lib'.NewKeypairFromPrivateKey bz)
    (hS : lib.NewKeypairFromSeed ("//" ++ n) = lib'.NewKeypairFromSeed ("//" ++ n))
    (c : String) : createKeypair lib n c = createKeypair lib' n c := by
  by_cases h1 : c = EthChain
  · subst h1
    rw [createKeypair_eth, createKeypair_eth, ← hL]
    cases hp : padWithZeros (bytes n) lib.PrivateKeyLength with
    | error p => rfl
    | ok bz =>
      dsimp only
      rw [hE bz hp]
  · by_cases h2 : c = SubChain
    · subst h2
      rw [createKeypair_sub, createKeypair_sub, hS]
    · unfold createKeypair
      rw [if_neg h1, if_neg h2, if_neg h1, if_neg h2]

theorem createKeyRing_congr {E S : Type} (lib lib' : CryptoLib E S) (c : String)
    (h : ∀ n ∈ identityNames, createKeypair lib n c = createKeypair lib' n c) :
    createKeyRing lib c = createKeyRing lib' c := by
  unfold createKeyRing
  rw [h AliceKey (by simp [identityNames]), h BobKey (by simp [identityNames]),
    h CharlieKey (by simp [identityNames]), h DaveKey (by simp [identityNames]),
    h EveKey (by simp [identityNames])]

/-- A derivation never aborts on a type assertion. -/
theorem createKeypair_ne_typeAssertion {E S : Type} (lib : CryptoLib E S) (n c : String) :
    createKeypair lib n c ≠ .error .typeAssertion := by
  by_cases h1 : c = EthChain
  · subst h1
    rw [createKeypair_eth]
    rcases padWithZeros_cases (bytes n) lib.PrivateKeyLength with ⟨-, -, hp⟩ | hp
    · rw [hp]
      dsimp only
      split <;> simp
    · rw [hp]
      simp
  · by_cases h2 : c = SubChain
    · subst h2
      rw [createKeypair_sub]
      split <;> simp
    · unfold createKeypair
      rw [if_neg h1, if_neg h2]
      simp [pure, Except.pure]

theorem padWithZeros_names {n : String} (hn : n ∈ identityNames) :
    padWithZeros (bytes n) 32 = .ok (ethSeed 32 n) ∧ (ethSeed 32 n).length = 32 := by
  simp only [identityNames, List.mem_cons, List.mem_singleton, List.not_mem_nil,
    or_false] at hn
  rcases hn with rfl | rfl | rfl | rfl | rfl <;> exact ⟨rfl, rfl⟩

/-- C11: construction depends on the external packages only through
`PrivateKeyLength` and the values of the two constructors on the seeds of the
five names: two libraries that agree there compute the same seeds, `init`
has the same outcome for both, the registries are equal, and every lookup on
them returns the same keypair and the same error; the order in which
`makeETHRing` and `makeSUBRing` visit the entries of the KeyRing does not
change what the map they build holds at any key. -/
theorem C11_determinism {E S : Type} (lib lib' : CryptoLib E S)
    (hL : lib.PrivateKeyLength = lib'.PrivateKeyLength)
    (hE : ∀ n ∈ identityNames, ∀ bz, padWithZeros (bytes n) lib.PrivateKeyLength = .ok bz →
      lib.NewKeypairFromPrivateKey bz = lib'.NewKeypairFromPrivateKey bz)
    (hS : ∀ n ∈ identityNames,
      lib.NewKeypairFromSeed ("//" ++ n) = lib'.NewKeypairFromSeed ("//" ++ n)) :
    (∀ n, padWithZeros (bytes n) lib.PrivateKeyLength =
        padWithZeros (bytes n) lib'.PrivateKeyLength) ∧
      (∀ n ∈ identityNames, ∀ c, createKeypair lib n c = createKeypair lib' n c) ∧
      init lib = init lib' ∧
      (∀ ring ring', init lib = .ok ring → init lib' = .ok ring' →
        ring = ring' ∧ ∀ key chainType,
          insecureKeypairFromAddress ring key chainType =
            insecureKeypairFromAddress ring' key chainType) ∧
      (∀ (k k' : KeyRing E S) (r : List (String × Option E)),
        createKeyRing lib EthChain = .ok k → k.Perm k' → makeETHRing k = .ok r →
        ∃ r', makeETHRing k' = .ok r' ∧ ∀ x, mapIndex r' x = mapIndex r x) ∧
      (∀ (k k' : KeyRing E S) (r : List (String × Option S)),
        createKeyRing lib SubChain = .ok k → k.Perm k' → makeSUBRing k = .ok r →
        ∃ r', makeSUBRing k' = .ok r' ∧ ∀ x, mapIndex r' x = mapIndex r x) := by
  have hkp : ∀ n ∈ identityNames, ∀ c, createKeypair lib n c = createKeypair lib' n c :=
    fun n hn c => createKeypair_congr lib lib' hL n (hE n hn) (hS n hn) c
  have hinit : init lib = init lib' := by
    unfold init
    rw [createKeyRing_congr lib lib' EthChain fun n hn => hkp n hn EthChain,
      createKeyRing_congr lib lib' SubChain fun n hn => hkp n hn SubChain]
  have hnd : identityNames.Nodup := by decide
  refine ⟨fun n => by rw [hL], hkp, hinit, ?_,
    fun k k' r hk hp h => makeETHRing_perm hp (by rw [createKeyRing_keys hk]; exact hnd) h,
    fun k k' r hk hp h => makeSUBRing_perm hp (by rw [createKeyRing_keys hk]; exact hnd) h⟩
  intro ring ring' h1 h2
  rw [hinit, h2] at h1
  injection h1 with h1
  subst h1
  exact ⟨rfl, fun _ _ => rfl⟩

theorem strictLib_seeds : ∀ n ∈ identityNames,
    echoLib.NewKeypairFromSeed ("//" ++ n) = strictLib.NewKeypairFromSeed ("//" ++ n) := by
  intro n hn
  simp only [identityNames, List.mem_cons, List.mem_singleton, List.not_mem_nil,
    or_false] at hn
  rcases hn with rfl | rfl | rfl | rfl | rfl <;> rfl

theorem C11_witness :
    echoLib.NewKeypairFromSeed "//mallory" ≠ strictLib.NewKeypairFromSeed "//mallory" ∧
      init echoLib = init strictLib ∧ init strictLib = .ok echoRing :=
  ⟨by decide,
    (C11_determinism echoLib strictLib rfl (fun _ _ _ _ => rfl) strictLib_seeds).2.2.1, rfl⟩

/-- C12: the lookup has no aborting step, so it is a total function of the
registry, the name and the chain type; on a registry built by `init` it
returns a non-nil error exactly when the chain type is neither "ethereum" nor
"substrate" or the name is not one of the five, the keypair is nil when there
is an error and is not nil when there is none. -/
theorem C12_lookup_errors {E S : Type} (lib : CryptoLib E S) (ring : TestKeyRingHolder E S)
    (hinit : init lib = .ok ring) (key chainType : String) :
    ((insecureKeypairFromAddress ring key chainType).2 ≠ none ↔
        (chainType ≠ "ethereum" ∧ chainType ≠ "substrate") ∨
          key ∉ ["alice", "bob", "charlie", "dave", "eve"]) ∧
      ((insecureKeypairFromAddress ring key chainType).2 ≠ none →
        (insecureKeypairFromAddress ring key chainType).1 = Keypair.nil) ∧
      ((insecureKeypairFromAddress ring key chainType).2 = none →
        (insecureKeypairFromAddress ring key chainType).1 ≠ Keypair.nil) := by
  obtain ⟨rfl, -⟩ := init_ok hinit
  have h3 : ¬ SubChain = EthChain := by decide
  rw [lookup_expectedRing]
  show (_ ↔ (chainType ≠ EthChain ∧ chainType ≠ SubChain) ∨ key ∉ identityNames) ∧ _
  by_cases h1 : chainType = EthChain
  · subst h1
    by_cases hk : key ∈ identityNames <;> simp [hk]
  · by_cases h2 : chainType = SubChain
    · subst h2
      by_cases hk : key ∈ identityNames <;> simp [hk, h3]
    · simp [h1, h2]

theorem C12_witness :
    init echoLib = .ok echoRing ∧
      (insecureKeypairFromAddress echoRing "eve" "substrate").2 = none ∧
      (insecureKeypairFromAddress echoRing "eve" "bitcoin").2 ≠ none ∧
      (insecureKeypairFromAddress echoRing "mallory" "substrate").2 ≠ none :=
  ⟨rfl,
    by
      have h := (C12_lookup_errors echoLib echoRing rfl "eve" "substrate").1
      exact Classical.not_not.mp fun hne => (h.mp hne).elim (fun c => c.2 rfl)
        (fun c => c (by decide)),
    (C12_lookup_errors echoLib echoRing rfl "eve" "bitcoin").1.mpr
      (Or.inl ⟨by decide, by decide⟩),
    (C12_lookup_errors echoLib echoRing rfl "mallory" "substrate").1.mpr
      (Or.inr (by decide))⟩

/-- C13: every value of `createKeyRing` on "ethereum" has dynamic type
`*secp256k1.Keypair` and every value on "substrate" has dynamic type
`*sr25519.Keypair`, so `makeETHRing` and `makeSUBRing` return on them; no
derivation and no run of `init` aborts on a type assertion. -/
theorem C13_downcast_safe {E S : Type} (lib : CryptoLib E S) :
    (∀ k, createKeyRing lib "ethereum" = .ok k →
        (∀ x ∈ k, ∃ p, x.2 = Keypair.secp256k1 p) ∧ ∃ r, makeETHRing k = .ok r) ∧
      (∀ k, createKeyRing lib "substrate" = .ok k →
        (∀ x ∈ k, ∃ p, x.2 = Keypair.sr25519 p) ∧ ∃ r, makeSUBRing k = .ok r) ∧
      (∀ n c, createKeypair lib n c ≠ .error .typeAssertion) ∧
      init lib ≠ .error .typeAssertion := by
  refine ⟨?_, ?_, createKeypair_ne_typeAssertion lib, ?_⟩
  · intro k hk
    have hty : ∀ x ∈ k, ∃ p, x.2 = Keypair.secp256k1 p := by
      rcases createKeyRing_cases lib EthChain with
        ⟨a, b, c, d, e, ha, hb, hc, hd, he, hk'⟩ | ⟨n, -, p, -, hk'⟩
      · obtain ⟨-, -, rfl⟩ := createKeypair_eth_ok ha
        obtain ⟨-, -, rfl⟩ := createKeypair_eth_ok hb
        obtain ⟨-, -, rfl⟩ := createKeypair_eth_ok hc
        obtain ⟨-, -, rfl⟩ := createKeypair_eth_ok hd
        obtain ⟨-, -, rfl⟩ := createKeypair_eth_ok he
        have hk2 : createKeyRing lib EthChain = .ok k := hk
        rw [hk'] at hk2
        injection hk2 with hk2
        subst hk2
        intro x hx
        simp only [List.mem_cons, List.mem_singleton, List.not_mem_nil, or_false] at hx
        rcases hx with rfl | rfl | rfl | rfl | rfl <;> exact ⟨_, rfl⟩
      · have hk2 : createKeyRing lib EthChain = .ok k := hk
        rw [hk'] at hk2
        cases hk2
    exact ⟨hty, makeETHRingLoop_total k [] hty⟩
  · intro k hk
    have hty : ∀ x ∈ k, ∃ p, x.2 = Keypair.sr25519 p := by
      rcases createKeyRing_cases lib SubChain with
        ⟨a, b, c, d, e, ha, hb, hc, hd, he, hk'⟩ | ⟨n, -, p, -, hk'⟩
      · obtain ⟨-, rfl⟩ := createKeypair_sub_ok ha
        obtain ⟨-, rfl⟩ := createKeypair_sub_ok hb
        obtain ⟨-, rfl⟩ := createKeypair_sub_ok hc
        obtain ⟨-, rfl⟩ := createKeypair_sub_ok hd
        obtain ⟨-, rfl⟩ := createKeypair_sub_ok he
        have hk2 : createKeyRing lib SubChain = .ok k := hk
        rw [hk'] at hk2
        injection hk2 with hk2
        subst hk2
        intro x hx
        simp only [List.mem_cons, List.mem_singleton, List.not_mem_nil, or_false] at hx
        rcases hx with rfl | rfl | rfl | rfl | rfl <;> exact ⟨_, rfl⟩
      · have hk2 : createKeyRing lib SubChain = .ok k := hk
        rw [hk'] at hk2
        cases hk2
    exact ⟨hty, makeSUBRingLoop_total k [] hty⟩
  · intro h
    rcases init_cases lib with ⟨-, hi⟩ | ⟨n, -, c, -, p, hp, hi⟩
    · rw [hi] at h
      cases h
    · rw [hi] at h
      injection h with h
      subst h
      exact createKeypair_ne_typeAssertion lib n c hp

theorem C13_witness :
    (∃ k, createKeyRing echoLib "ethereum" = .ok k ∧
        (∀ x ∈ k, ∃ p, x.2 = Keypair.secp256k1 p) ∧ ∃ r, makeETHRing k = .ok r) ∧
      init failingLib ≠ .error .typeAssertion :=
  ⟨⟨_, rfl, (C13_downcast_safe echoLib).1 _ rfl⟩, (C13_downcast_safe failingLib).2.2.2⟩


/-! ## Seeds of the fixture names, unrecognized chains -/

/-- C14: with target length 32 the padded seeds of the five names exist, have
32 bytes and are pairwise different, and the five strings "//" followed by a
name are pairwise different, the five names being themselves different. -/
theorem C14_seed_distinct :
    identityNames.Nodup ∧
      (∀ n ∈ identityNames, ∃ bz, padWithZeros (bytes n) 32 = .ok bz ∧ bz.length = 32) ∧
      (∀ n ∈ identityNames, ∀ m ∈ identityNames, n ≠ m →
        padWithZeros (bytes n) 32 ≠ padWithZeros (bytes m) 32) ∧
      (∀ n ∈ identityNames, ∀ m ∈ identityNames, n ≠ m → "//" ++ n ≠ "//" ++ m) := by
  refine ⟨by decide, fun n hn => ⟨_, padWithZeros_names hn⟩, ?_, ?_⟩
  · intro n hn m hm hne h
    rw [(padWithZeros_names hn).1, (padWithZeros_names hm).1] at h
    injection h with h
    exact hne (ethSeed_names_inj 32 hn hm h)
  · intro n _ m _ hne h
    exact hne (subSeed_inj h)

theorem C14_witness :
    padWithZeros (bytes "alice") 32 ≠ padWithZeros (bytes "eve") 32 ∧
      "//" ++ "alice" ≠ "//" ++ "eve" :=
  ⟨C14_seed_distinct.2.2.1 "alice" (by decide) "eve" (by decide) (by decide),
    C14_seed_distinct.2.2.2 "alice" (by decide) "eve" (by decide) (by decide)⟩

/-- C16: for every library, every name and every chain other than "ethereum"
and "substrate", `createKeypair` returns the nil interface, whatever the
constructors of the library do, and `createKeyRing` returns the map with the
five names as keys, each mapped to nil. -/
theorem C16_unrecognized_chain {E S : Type} (lib : CryptoLib E S) (name chain : String)
    (hEth : chain ≠ "ethereum") (hSub : chain ≠ "substrate") :
    createKeypair lib name chain = .ok Keypair.nil ∧
      createKeyRing lib chain =
        .ok [("alice", Keypair.nil), ("bob", Keypair.nil), ("charlie", Keypair.nil),
          ("dave", Keypair.nil), ("eve", Keypair.nil)] ∧
      ∀ k, createKeyRing lib chain = .ok k →
        mapKeys k = ["alice", "bob", "charlie", "dave", "eve"] ∧
        ∀ n ∈ identityNames, mapIndex k n = some Keypair.nil := by
  have h1 : ¬ chain = EthChain := hEth
  have h2 : ¬ chain = SubChain := hSub
  have hkp : ∀ n, createKeypair lib n chain = .ok Keypair.nil := by
    intro n
    unfold createKeypair
    rw [if_neg h1, if_neg h2]
    rfl
  have hring : createKeyRing lib chain =
      .ok [("alice", Keypair.nil), ("bob", Keypair.nil), ("charlie", Keypair.nil),
        ("dave", Keypair.nil), ("eve", Keypair.nil)] := by
    unfold createKeyRing
    rw [hkp, hkp, hkp, hkp, hkp]
    rfl
  refine ⟨hkp name, hring, ?_⟩
  intro k hk
  rw [hring] at hk
  injection hk with hk
  subst hk
  refine ⟨rfl, ?_⟩
  intro n hn
  simp only [identityNames, List.mem_cons, List.mem_singleton, List.not_mem_nil,
    or_false] at hn
  rcases hn with rfl | rfl | rfl | rfl | rfl <;> rfl

theorem C16_witness :
    ("bitcoin" ≠ "ethereum" ∧ "bitcoin" ≠ "substrate") ∧
      createKeypair rejectingLib "alice" "bitcoin" = .ok Keypair.nil ∧
      createKeyRing rejectingLib "bitcoin" =
        .ok [("alice", Keypair.nil), ("bob", Keypair.nil), ("charlie", Keypair.nil),
          ("dave", Keypair.nil), ("eve", Keypair.nil)] :=
  ⟨⟨by decide, by decide⟩,
    (C16_unrecognized_chain rejectingLib "alice" "bitcoin" (by decide) (by decide)).1,
    (C16_unrecognized_chain rejectingLib "alice" "bitcoin" (by decide) (by decide)).2.1⟩

end keystore
